import Mathlib

/-!
Verification of the event fan-out subsystem of graphqlTinyExample.

The development shallowly embeds:
* `pkg/events/events.go` — the `EventBus` (topic registry + publisher);
* `pkg/graphql/resolver.go`, `DeliveryUpdated` — the subscription resolver's
  cleanup path;
* `cmd/server/main.go`, `handleWebSocketConnection` — the per-connection
  WebSocket subscription session.

Go channels are modelled by identifiers (`Nat`) paired with their buffered
contents; a send on a bounded channel of capacity `chanCap` appends to the
buffer when there is room and is skipped otherwise, mirroring the
`select { case ch <- event: ... default: ... }` non-blocking send.
Go maps are modelled by association lists with distinct keys.
-/

namespace GraphqlTiny

/-- Mirror of `models.Delivery` (pkg/models/models.go).  The `Purchase`
pointer field is resolved lazily by the GraphQL layer and never read by the
event subsystem, so it is omitted; `Timestamp` is abstracted to an integer. -/
structure Delivery where
  id : Int
  purchaseID : Int
  timestamp : Int
  status : String
  deriving DecidableEq, Repr

/-- Mirror of `events.DeliveryEvent`. -/
structure DeliveryEvent where
  delivery : Delivery
  deriving DecidableEq, Repr

/-! ### Association lists standing for Go maps -/

/-- Go map lookup `m[k]` (comma-ok form): first entry with key `k`. -/
def lookupA {α β : Type} [DecidableEq α] : List (α × β) → α → Option β
  | [], _ => none
  | p :: rest, k => if p.1 = k then some p.2 else lookupA rest k

/-- Go map assignment `m[k] = v`: overwrite the entry for `k`, or append it. -/
def updateA {α β : Type} [DecidableEq α] : List (α × β) → α → β → List (α × β)
  | [], k, v => [(k, v)]
  | p :: rest, k, v => if p.1 = k then (k, v) :: rest else p :: updateA rest k v

/-- Go `delete(m, k)`: drop the entry for `k` if present. -/
def removeA {α β : Type} [DecidableEq α] : List (α × β) → α → List (α × β)
  | [], _ => []
  | p :: rest, k => if p.1 = k then rest else p :: removeA rest k

/-! ### Decimal rendering, mirror of `strconv.Itoa` -/

/-- Decimal digits of `n`, most significant first; `fuel` bounds recursion. -/
def natDigits : Nat → Nat → List Char
  | 0, _ => []
  | fuel + 1, n =>
    if n < 10 then [Char.ofNat (48 + n)]
    else natDigits fuel (n / 10) ++ [Char.ofNat (48 + n % 10)]

/-- Decimal string of a natural number. -/
def natToString (n : Nat) : String := ⟨natDigits (n + 1) n⟩

/-- Mirror of `strconv.Itoa`: decimal rendering of a (signed) Go `int`. -/
def itoa (i : Int) : String :=
  if i < 0 then "-" ++ natToString i.natAbs else natToString i.natAbs

theorem natDigits_ne_nil (fuel n : Nat) : natDigits (fuel + 1) n ≠ [] := by
  unfold natDigits
  split
  · simp
  · simp

theorem itoa_ne_empty (i : Int) : itoa i ≠ "" := by
  unfold itoa
  have h : natToString i.natAbs ≠ "" := by
    unfold natToString
    intro h
    exact natDigits_ne_nil i.natAbs i.natAbs (congrArg String.data h)
  split
  · intro h2
    have := congrArg String.data h2
    simp [String.data] at this
  · exact h

/-! ### The event bus (pkg/events/events.go) -/

/-- Capacity of a subscriber channel: `make(chan DeliveryEvent, 1)`. -/
def chanCap : Nat := 1

/-- Mirror of `events.EventBus`.  `subscribers` is the
`map[string]map[chan DeliveryEvent]bool` (each inner set kept as a
duplicate-free list of channel identifiers); `chans` gives each live
channel's buffered contents; `nextCh` supplies fresh channel identities
(in Go, channel identity is the channel value returned by `make`). -/
structure EventBus where
  subscribers : List (String × List Nat)
  chans : List (Nat × List DeliveryEvent)
  nextCh : Nat
  deriving DecidableEq, Repr

/-- Mirror of `events.NewEventBus`. -/
def newEventBus : EventBus := ⟨[], [], 0⟩

/-- Set insertion, mirror of `set[ch] = true` on a Go map-as-set. -/
def setInsert (l : List Nat) (x : Nat) : List Nat :=
  if x ∈ l then l else l ++ [x]

/-- Mirror of `EventBus.SubscribeToDeliveries`: allocate a fresh channel of
capacity `chanCap`, create the key's set if absent, add the channel to it,
and return the channel. -/
def subscribeToDeliveries (b : EventBus) (purchaseID : String) :
    Nat × EventBus :=
  let ch := b.nextCh
  let subs :=
    match lookupA b.subscribers purchaseID with
    | some s => updateA b.subscribers purchaseID (setInsert s ch)
    | none => updateA b.subscribers purchaseID (setInsert [] ch)
  (ch, ⟨subs, b.chans ++ [(ch, [])], ch + 1⟩)

/-- Mirror of `EventBus.Unsubscribe`: if the key is present, delete the
channel from its set, and delete the key when the set becomes empty. -/
def unsubscribe (b : EventBus) (purchaseID : String) (ch : Nat) : EventBus :=
  match lookupA b.subscribers purchaseID with
  | none => b
  | some s =>
    let s' := s.erase ch
    if s' = [] then
      { b with subscribers := removeA b.subscribers purchaseID }
    else
      { b with subscribers := updateA b.subscribers purchaseID s' }

/-- Non-blocking send `select { case ch <- event: default: }` on one
buffer: enqueue when below capacity, otherwise drop. -/
def offer (buf : List DeliveryEvent) (ev : DeliveryEvent) :
    List DeliveryEvent :=
  if buf.length < chanCap then buf ++ [ev] else buf

/-- One fan-out pass: attempt a non-blocking send of `ev` to every channel
of `set`.  Go iterates the set and sends; since sends to distinct channels
are independent and the set is duplicate-free, the per-channel effect is a
single `offer` applied to each member. -/
def sendToSet (chans : List (Nat × List DeliveryEvent)) (set : List Nat)
    (ev : DeliveryEvent) : List (Nat × List DeliveryEvent) :=
  chans.map fun p => if p.1 ∈ set then (p.1, offer p.2 ev) else p

/-- One `if subscribers, ok := b.subscribers[key]; ok { for ch := range
subscribers { ... } }` block of `PublishDelivery`: when the key is present
fan out to its set, otherwise do nothing. -/
def sendToKey (chans : List (Nat × List DeliveryEvent))
    (o : Option (List Nat)) (ev : DeliveryEvent) :
    List (Nat × List DeliveryEvent) :=
  match o with
  | some set => sendToSet chans set ev
  | none => chans

/-- Mirror of `EventBus.PublishDelivery`: fan out first to the subscribers
of `strconv.Itoa(delivery.PurchaseID)`, then to the subscribers of the
wildcard key `""`. -/
def publishDelivery (b : EventBus) (d : Delivery) : EventBus :=
  let event : DeliveryEvent := ⟨d⟩
  let purchaseID := itoa d.purchaseID
  let c1 := sendToKey b.chans (lookupA b.subscribers purchaseID) event
  let c2 := sendToKey c1 (lookupA b.subscribers "") event
  { b with chans := c2 }

/-! ### Reachable bus states -/

/-- One client-driven operation on the bus. -/
inductive BusOp where
  | subscribe (purchaseID : String)
  | unsub (purchaseID : String) (ch : Nat)
  | publish (d : Delivery)
  deriving Repr

/-- Apply one operation. -/
def applyOp (b : EventBus) : BusOp → EventBus
  | .subscribe k => (subscribeToDeliveries b k).2
  | .unsub k ch => unsubscribe b k ch
  | .publish d => publishDelivery b d

/-- Run a sequence of operations from the fresh bus. -/
def runOps (ops : List BusOp) : EventBus :=
  ops.foldl applyOp newEventBus

/-! ### Association list lemmas -/

theorem lookupA_mem {α β : Type} [DecidableEq α] {l : List (α × β)} {k : α}
    {v : β} (h : lookupA l k = some v) : (k, v) ∈ l := by
  induction l with
  | nil => simp [lookupA] at h
  | cons p rest ih =>
    unfold lookupA at h
    split at h
    · rename_i hk
      cases h
      obtain ⟨a, b⟩ := p
      simp only at hk
      subst hk
      exact List.mem_cons_self _ _
    · exact List.mem_cons_of_mem _ (ih h)

theorem lookupA_eq_none {α β : Type} [DecidableEq α] {l : List (α × β)}
    {k : α} : lookupA l k = none ↔ k ∉ l.map Prod.fst := by
  induction l with
  | nil => simp [lookupA]
  | cons p rest ih =>
    unfold lookupA
    split
    · rename_i hk
      subst hk
      simp
    · rename_i hk
      rw [ih]
      simp only [List.map_cons, List.mem_cons, not_or]
      constructor
      · intro h
        exact ⟨fun h1 => hk h1.symm, h⟩
      · intro h
        exact h.2

theorem lookupA_append_left {α β : Type} [DecidableEq α]
    {l1 l2 : List (α × β)} {k : α} (h : lookupA l1 k = none) :
    lookupA (l1 ++ l2) k = lookupA l2 k := by
  induction l1 with
  | nil => rfl
  | cons p rest ih =>
    unfold lookupA at h
    split at h
    · cases h
    · rename_i hk
      simp only [List.cons_append]
      have h1 : lookupA (p :: (rest ++ l2)) k = lookupA (rest ++ l2) k :=
        if_neg hk
      rw [h1]
      exact ih h

theorem updateA_of_none {α β : Type} [DecidableEq α] {l : List (α × β)}
    {k : α} {v : β} (h : lookupA l k = none) : updateA l k v = l ++ [(k, v)] := by
  induction l with
  | nil => rfl
  | cons p rest ih =>
    unfold lookupA at h
    split at h
    · cases h
    · rename_i hk
      unfold updateA
      rw [if_neg hk, ih h]
      rfl

theorem mem_updateA {α β : Type} [DecidableEq α] {l : List (α × β)} {k : α}
    {v : β} {p : α × β} (h : p ∈ updateA l k v) : p = (k, v) ∨ p ∈ l := by
  induction l with
  | nil => simpa [updateA] using h
  | cons q rest ih =>
    unfold updateA at h
    split at h
    · rcases List.mem_cons.1 h with h1 | h1
      · exact Or.inl h1
      · exact Or.inr (List.mem_cons_of_mem _ h1)
    · rcases List.mem_cons.1 h with h1 | h1
      · exact Or.inr (h1 ▸ List.mem_cons_self _ _)
      · rcases ih h1 with h2 | h2
        · exact Or.inl h2
        · exact Or.inr (List.mem_cons_of_mem _ h2)

theorem mem_updateA_nodup {α β : Type} [DecidableEq α] {l : List (α × β)}
    {k : α} {v : β} {p : α × β} (hn : (l.map Prod.fst).Nodup) :
    p ∈ updateA l k v ↔ p = (k, v) ∨ (p ∈ l ∧ p.1 ≠ k) := by
  induction l with
  | nil => simp [updateA]
  | cons q rest ih =>
    simp only [List.map_cons, List.nodup_cons] at hn
    unfold updateA
    split
    · rename_i hk
      subst hk
      constructor
      · intro h
        rcases List.mem_cons.1 h with h1 | h1
        · exact Or.inl h1
        · refine Or.inr ⟨List.mem_cons_of_mem _ h1, ?_⟩
          intro hpk
          exact hn.1 (hpk ▸ List.mem_map_of_mem Prod.fst h1)
      · intro h
        rcases h with h1 | ⟨h1, h2⟩
        · exact h1 ▸ List.mem_cons_self _ _
        · rcases List.mem_cons.1 h1 with h3 | h3
          · exact absurd (congrArg Prod.fst h3) h2
          · exact List.mem_cons_of_mem _ h3
    · rename_i hk
      constructor
      · intro h
        rcases List.mem_cons.1 h with h1 | h1
        · exact Or.inr ⟨h1 ▸ List.mem_cons_self _ _, h1 ▸ hk⟩
        · rcases (ih hn.2).1 h1 with h2 | ⟨h2, h3⟩
          · exact Or.inl h2
          · exact Or.inr ⟨List.mem_cons_of_mem _ h2, h3⟩
      · intro h
        rcases h with h1 | ⟨h1, h2⟩
        · exact List.mem_cons_of_mem _ ((ih hn.2).2 (Or.inl h1))
        · rcases List.mem_cons.1 h1 with h3 | h3
          · exact h3 ▸ List.mem_cons_self _ _
          · exact List.mem_cons_of_mem _ ((ih hn.2).2 (Or.inr ⟨h3, h2⟩))

theorem map_fst_updateA_of_some {α β : Type} [DecidableEq α]
    {l : List (α × β)} {k : α} {s : β} (v : β) (h : lookupA l k = some s) :
    (updateA l k v).map Prod.fst = l.map Prod.fst := by
  induction l with
  | nil => cases h
  | cons p rest ih =>
    unfold lookupA at h
    unfold updateA
    split at h
    · rename_i hk
      rw [if_pos hk]
      simp [hk]
    · rename_i hk
      rw [if_neg hk]
      simp [ih h]

theorem lookupA_updateA_self {α β : Type} [DecidableEq α]
    (l : List (α × β)) (k : α) (v : β) :
    lookupA (updateA l k v) k = some v := by
  induction l with
  | nil => simp [updateA, lookupA]
  | cons p rest ih =>
    unfold updateA
    split
    · simp [lookupA]
    · rename_i hk
      have h1 : lookupA (p :: updateA rest k v) k = lookupA (updateA rest k v) k :=
        if_neg hk
      rw [h1]
      exact ih

theorem removeA_sublist {α β : Type} [DecidableEq α] (l : List (α × β))
    (k : α) : List.Sublist (removeA l k) l := by
  induction l with
  | nil => exact List.Sublist.refl _
  | cons p rest ih =>
    unfold removeA
    split
    · exact List.sublist_cons_self _ _
    · exact ih.cons₂ p

theorem pairwise_updateA {α β : Type} [DecidableEq α]
    {R : (α × β) → (α × β) → Prop} {l : List (α × β)} {k : α} {v : β}
    (hp : l.Pairwise R)
    (hrel : ∀ q ∈ l, q.1 ≠ k → R (k, v) q ∧ R q (k, v))
    (hn : (l.map Prod.fst).Nodup) :
    (updateA l k v).Pairwise R := by
  induction l with
  | nil => simp [updateA]
  | cons p rest ih =>
    simp only [List.map_cons, List.nodup_cons] at hn
    rcases List.pairwise_cons.1 hp with ⟨hhead, htail⟩
    unfold updateA
    split
    · rename_i hk
      subst hk
      refine List.pairwise_cons.2 ⟨?_, htail⟩
      intro q hq
      have hqk : q.1 ≠ p.1 := by
        intro hqp
        exact hn.1 (hqp ▸ List.mem_map_of_mem Prod.fst hq)
      exact (hrel q (List.mem_cons_of_mem _ hq) hqk).1
    · rename_i hk
      refine List.pairwise_cons.2 ⟨?_, ?_⟩
      · intro q hq
        rcases mem_updateA hq with h1 | h1
        · exact h1 ▸ (hrel p (List.mem_cons_self _ _) hk).2
        · exact hhead q h1
      · exact ih htail
          (fun q hq hqk => hrel q (List.mem_cons_of_mem _ hq) hqk) hn.2

/-! ### The bus invariant -/

/-- Two registry entries have disjoint channel sets. -/
def Disj (p q : String × List Nat) : Prop := ∀ c, c ∈ p.2 → c ∉ q.2

theorem Disj.symmetric : Symmetric Disj := by
  intro p q h c hcq hcp
  exact h c hcp hcq

/-- Invariant of reachable `EventBus` states: registry keys are distinct,
every key's channel set is nonempty and duplicate-free, channel sets of
distinct keys are disjoint, all channel identifiers are below `nextCh`,
and the live-channel table has distinct identifiers. -/
structure BusInv (b : EventBus) : Prop where
  keysNodup : (b.subscribers.map Prod.fst).Nodup
  setsNonempty : ∀ p ∈ b.subscribers, p.2 ≠ []
  setsNodup : ∀ p ∈ b.subscribers, p.2.Nodup
  setsBound : ∀ p ∈ b.subscribers, ∀ c ∈ p.2, c < b.nextCh
  subsDisj : b.subscribers.Pairwise Disj
  chansNodup : (b.chans.map Prod.fst).Nodup
  chansBound : ∀ p ∈ b.chans, p.1 < b.nextCh

theorem busInv_new : BusInv newEventBus := by
  constructor <;> simp [newEventBus]

theorem BusInv.disj_of_ne {b : EventBus} (h : BusInv b)
    {p q : String × List Nat} (hp : p ∈ b.subscribers)
    (hq : q ∈ b.subscribers) (hne : p ≠ q) : Disj p q :=
  h.subsDisj.forall Disj.symmetric hp hq hne

theorem BusInv.chan_key_lt {b : EventBus} (h : BusInv b) {c : Nat}
    (hc : c ∈ b.chans.map Prod.fst) : c < b.nextCh := by
  rcases List.mem_map.1 hc with ⟨p, hp, hpc⟩
  exact hpc ▸ h.chansBound p hp

theorem busInv_subscribe (b : EventBus) (k : String) (h : BusInv b) :
    BusInv (subscribeToDeliveries b k).2 := by
  cases hl : lookupA b.subscribers k with
  | none =>
    have hred : (subscribeToDeliveries b k).2
        = ⟨b.subscribers ++ [(k, [b.nextCh])],
           b.chans ++ [(b.nextCh, [])], b.nextCh + 1⟩ := by
      simp [subscribeToDeliveries, hl, updateA_of_none hl, setInsert]
    rw [hred]
    have hknot : k ∉ b.subscribers.map Prod.fst := lookupA_eq_none.1 hl
    constructor
    · simp only [List.map_append, List.map_cons, List.map_nil]
      refine List.nodup_append.2 ⟨h.keysNodup, List.nodup_singleton k, ?_⟩
      intro a ha ha'
      rcases List.mem_singleton.1 ha' with rfl
      exact hknot ha
    · intro p hp
      rcases List.mem_append.1 hp with hp1 | hp1
      · exact h.setsNonempty p hp1
      · rcases List.mem_singleton.1 hp1 with rfl
        simp
    · intro p hp
      rcases List.mem_append.1 hp with hp1 | hp1
      · exact h.setsNodup p hp1
      · rcases List.mem_singleton.1 hp1 with rfl
        exact List.nodup_singleton _
    · intro p hp c hc
      rcases List.mem_append.1 hp with hp1 | hp1
      · exact Nat.lt_succ_of_lt (h.setsBound p hp1 c hc)
      · rcases List.mem_singleton.1 hp1 with rfl
        rcases List.mem_singleton.1 hc with rfl
        exact Nat.lt_succ_self _
    · refine List.pairwise_append.2
        ⟨h.subsDisj, List.pairwise_singleton _ _, ?_⟩
      intro p hp q hq
      rcases List.mem_singleton.1 hq with rfl
      intro c hc hc'
      rcases List.mem_singleton.1 hc' with rfl
      exact lt_irrefl _ (h.setsBound p hp _ hc)
    · simp only [List.map_append, List.map_cons, List.map_nil]
      refine List.nodup_append.2 ⟨h.chansNodup, List.nodup_singleton _, ?_⟩
      intro a ha ha'
      rcases List.mem_singleton.1 ha' with rfl
      exact lt_irrefl _ (h.chan_key_lt ha)
    · intro p hp
      rcases List.mem_append.1 hp with hp1 | hp1
      · exact Nat.lt_succ_of_lt (h.chansBound p hp1)
      · rcases List.mem_singleton.1 hp1 with rfl
        exact Nat.lt_succ_self _
  | some s =>
    have hmem : (k, s) ∈ b.subscribers := lookupA_mem hl
    have hch : b.nextCh ∉ s :=
      fun hm => lt_irrefl _ (h.setsBound _ hmem _ hm)
    have hins : setInsert s b.nextCh = s ++ [b.nextCh] := if_neg hch
    have hred : (subscribeToDeliveries b k).2
        = ⟨updateA b.subscribers k (s ++ [b.nextCh]),
           b.chans ++ [(b.nextCh, [])], b.nextCh + 1⟩ := by
      simp [subscribeToDeliveries, hl, hins]
    rw [hred]
    constructor
    · rw [map_fst_updateA_of_some _ hl]
      exact h.keysNodup
    · intro p hp
      rcases mem_updateA hp with rfl | hp1
      · simp
      · exact h.setsNonempty p hp1
    · intro p hp
      rcases mem_updateA hp with rfl | hp1
      · refine List.nodup_append.2
          ⟨h.setsNodup _ hmem, List.nodup_singleton _, ?_⟩
        intro a ha ha'
        rcases List.mem_singleton.1 ha' with rfl
        exact hch ha
      · exact h.setsNodup p hp1
    · intro p hp c hc
      rcases mem_updateA hp with rfl | hp1
      · rcases List.mem_append.1 hc with hc1 | hc1
        · exact Nat.lt_succ_of_lt (h.setsBound _ hmem c hc1)
        · rcases List.mem_singleton.1 hc1 with rfl
          exact Nat.lt_succ_self _
      · exact Nat.lt_succ_of_lt (h.setsBound p hp1 c hc)
    · refine pairwise_updateA h.subsDisj ?_ h.keysNodup
      intro q hq hqk
      have hne : (k, s) ≠ q := fun he => hqk (congrArg Prod.fst he).symm
      have hdisj : Disj (k, s) q := h.disj_of_ne hmem hq hne
      constructor
      · intro c hc
        rcases List.mem_append.1 hc with hc1 | hc1
        · exact hdisj c hc1
        · rcases List.mem_singleton.1 hc1 with rfl
          exact fun hm => lt_irrefl _ (h.setsBound q hq _ hm)
      · intro c hc hc'
        rcases List.mem_append.1 hc' with hc1 | hc1
        · exact hdisj c hc1 hc
        · rcases List.mem_singleton.1 hc1 with rfl
          exact lt_irrefl _ (h.setsBound q hq _ hc)
    · simp only [List.map_append, List.map_cons, List.map_nil]
      refine List.nodup_append.2 ⟨h.chansNodup, List.nodup_singleton _, ?_⟩
      intro a ha ha'
      rcases List.mem_singleton.1 ha' with rfl
      exact lt_irrefl _ (h.chan_key_lt ha)
    · intro p hp
      rcases List.mem_append.1 hp with hp1 | hp1
      · exact Nat.lt_succ_of_lt (h.chansBound p hp1)
      · rcases List.mem_singleton.1 hp1 with rfl
        exact Nat.lt_succ_self _

theorem busInv_unsubscribe (b : EventBus) (k : String) (ch : Nat)
    (h : BusInv b) : BusInv (unsubscribe b k ch) := by
  cases hl : lookupA b.subscribers k with
  | none =>
    have hred : unsubscribe b k ch = b := by
      simp [unsubscribe, hl]
    rw [hred]
    exact h
  | some s =>
    have hmem : (k, s) ∈ b.subscribers := lookupA_mem hl
    by_cases he : s.erase ch = []
    · have hred : unsubscribe b k ch
          = { b with subscribers := removeA b.subscribers k } := by
        simp [unsubscribe, hl, he]
      rw [hred]
      have hsub := removeA_sublist b.subscribers k
      constructor
      · exact h.keysNodup.sublist (hsub.map Prod.fst)
      · exact fun p hp => h.setsNonempty p (hsub.mem hp)
      · exact fun p hp => h.setsNodup p (hsub.mem hp)
      · exact fun p hp c hc => h.setsBound p (hsub.mem hp) c hc
      · exact h.subsDisj.sublist hsub
      · exact h.chansNodup
      · exact h.chansBound
    · have hred : unsubscribe b k ch
          = { b with subscribers := updateA b.subscribers k (s.erase ch) } := by
        simp [unsubscribe, hl, he]
      rw [hred]
      constructor
      · rw [map_fst_updateA_of_some _ hl]
        exact h.keysNodup
      · intro p hp
        rcases mem_updateA hp with rfl | hp1
        · exact he
        · exact h.setsNonempty p hp1
      · intro p hp
        rcases mem_updateA hp with rfl | hp1
        · exact (h.setsNodup _ hmem).erase ch
        · exact h.setsNodup p hp1
      · intro p hp c hc
        rcases mem_updateA hp with rfl | hp1
        · exact h.setsBound _ hmem c (List.erase_subset ch s hc)
        · exact h.setsBound p hp1 c hc
      · refine pairwise_updateA h.subsDisj ?_ h.keysNodup
        intro q hq hqk
        have hne : (k, s) ≠ q := fun heq => hqk (congrArg Prod.fst heq).symm
        have hdisj : Disj (k, s) q := h.disj_of_ne hmem hq hne
        exact ⟨fun c hc => hdisj c (List.erase_subset ch s hc),
          fun c hc hc' => hdisj c (List.erase_subset ch s hc') hc⟩
      · exact h.chansNodup
      · exact h.chansBound

theorem map_fst_sendToSet (cs : List (Nat × List DeliveryEvent))
    (set : List Nat) (ev : DeliveryEvent) :
    (sendToSet cs set ev).map Prod.fst = cs.map Prod.fst := by
  unfold sendToSet
  rw [List.map_map]
  apply List.map_congr_left
  intro p _
  by_cases hp : p.1 ∈ set
  · simp [hp]
  · simp [hp]

theorem mem_sendToSet {cs : List (Nat × List DeliveryEvent)} {set : List Nat}
    {ev : DeliveryEvent} {p : Nat × List DeliveryEvent}
    (h : p ∈ sendToSet cs set ev) : p.1 ∈ cs.map Prod.fst := by
  unfold sendToSet at h
  rcases List.mem_map.1 h with ⟨q, hq, hqp⟩
  have : p.1 = q.1 := by
    by_cases hs : q.1 ∈ set
    · simp [hs] at hqp
      rw [← hqp]
    · simp [hs] at hqp
      rw [← hqp]
  exact this ▸ List.mem_map_of_mem Prod.fst hq

theorem map_fst_sendToKey (cs : List (Nat × List DeliveryEvent))
    (o : Option (List Nat)) (ev : DeliveryEvent) :
    (sendToKey cs o ev).map Prod.fst = cs.map Prod.fst := by
  cases o with
  | none => rfl
  | some set => exact map_fst_sendToSet cs set ev

theorem busInv_publish (b : EventBus) (d : Delivery) (h : BusInv b) :
    BusInv (publishDelivery b d) := by
  have hkeys : (publishDelivery b d).chans.map Prod.fst
      = b.chans.map Prod.fst := by
    show (sendToKey (sendToKey b.chans _ _) _ _).map Prod.fst = _
    rw [map_fst_sendToKey, map_fst_sendToKey]
  have hsubs : (publishDelivery b d).subscribers = b.subscribers := rfl
  have hnext : (publishDelivery b d).nextCh = b.nextCh := rfl
  constructor
  · rw [hsubs]; exact h.keysNodup
  · rw [hsubs]; exact h.setsNonempty
  · rw [hsubs]; exact h.setsNodup
  · rw [hsubs, hnext]; exact h.setsBound
  · rw [hsubs]; exact h.subsDisj
  · rw [hkeys]; exact h.chansNodup
  · intro p hp
    rw [hnext]
    exact h.chan_key_lt (hkeys ▸ List.mem_map_of_mem Prod.fst hp)

theorem busInv_applyOp (b : EventBus) (op : BusOp) (h : BusInv b) :
    BusInv (applyOp b op) := by
  cases op with
  | subscribe k => exact busInv_subscribe b k h
  | unsub k ch => exact busInv_unsubscribe b k ch h
  | publish d => exact busInv_publish b d h

theorem busInv_foldl (ops : List BusOp) :
    ∀ b : EventBus, BusInv b → BusInv (ops.foldl applyOp b) := by
  induction ops with
  | nil => exact fun b h => h
  | cons op rest ih =>
    intro b h
    exact ih _ (busInv_applyOp b op h)

theorem busInv_runOps (ops : List BusOp) : BusInv (runOps ops) :=
  busInv_foldl ops newEventBus busInv_new

/-! ### Per-channel characterization of publishing -/

theorem lookupA_sendToSet (cs : List (Nat × List DeliveryEvent))
    (set : List Nat) (ev : DeliveryEvent) (c : Nat) :
    lookupA (sendToSet cs set ev) c =
      (lookupA cs c).map fun buf => if c ∈ set then offer buf ev else buf := by
  induction cs with
  | nil => rfl
  | cons p rest ih =>
    by_cases hc : p.1 = c
    · subst hc
      by_cases hs : p.1 ∈ set
      · simp [sendToSet, lookupA, hs]
      · simp [sendToSet, lookupA, hs]
    · by_cases hs : p.1 ∈ set
      · simpa [sendToSet, lookupA, hs, hc] using ih
      · simpa [sendToSet, lookupA, hs, hc] using ih

theorem lookupA_sendToKey (cs : List (Nat × List DeliveryEvent))
    (o : Option (List Nat)) (ev : DeliveryEvent) (c : Nat) :
    lookupA (sendToKey cs o ev) c =
      (lookupA cs c).map fun buf =>
        if c ∈ o.getD [] then offer buf ev else buf := by
  cases o with
  | none =>
    cases h : lookupA cs c <;> simp [sendToKey, h]
  | some set => exact lookupA_sendToSet cs set ev c

theorem lookupA_publishDelivery (b : EventBus) (d : Delivery) (c : Nat) :
    lookupA (publishDelivery b d).chans c =
      (lookupA b.chans c).map fun buf =>
        if c ∈ (lookupA b.subscribers "").getD [] then
          offer (if c ∈ (lookupA b.subscribers (itoa d.purchaseID)).getD []
                 then offer buf ⟨d⟩ else buf) ⟨d⟩
        else
          (if c ∈ (lookupA b.subscribers (itoa d.purchaseID)).getD []
           then offer buf ⟨d⟩ else buf) := by
  show lookupA (sendToKey (sendToKey b.chans _ _) _ _) c = _
  rw [lookupA_sendToKey, lookupA_sendToKey, Option.map_map]
  cases lookupA b.chans c with
  | none => rfl
  | some buf => rfl

/-- Channel sets of two distinct registered keys are disjoint in any
invariant state. -/
theorem busInv_lookup_disjoint {b : EventBus} (h : BusInv b)
    {k1 k2 : String} {s1 s2 : List Nat}
    (h1 : lookupA b.subscribers k1 = some s1)
    (h2 : lookupA b.subscribers k2 = some s2) (hne : k1 ≠ k2) :
    ∀ c ∈ s1, c ∉ s2 := by
  have hm1 : (k1, s1) ∈ b.subscribers := lookupA_mem h1
  have hm2 : (k2, s2) ∈ b.subscribers := lookupA_mem h2
  have hpq : (k1, s1) ≠ (k2, s2) := fun he => hne (congrArg Prod.fst he)
  exact h.disj_of_ne hm1 hm2 hpq

/-! ### The subscription session (cmd/server/main.go,
`handleWebSocketConnection`) -/

/-- A parsed inbound WebSocket message: the `type` string the switch
dispatches on, the client-chosen subscription `id`, and whether the
`start` payload unmarshals (`json.Unmarshal` of the payload succeeds). -/
structure RawMsg where
  type : String
  id : String
  payloadOK : Bool
  deriving DecidableEq, Repr

/-- An outbound protocol message written by `sendMessage` /
`sendErrorMessage`.  `data` messages are produced asynchronously by the
forwarding goroutines, not by the read loop, so they do not appear in the
read-loop outputs modelled here. -/
inductive ServerMsg where
  | connectionAck
  | errorReply (id : String) (text : String)
  | complete (id : String)
  deriving DecidableEq, Repr

/-- Per-connection session state.  `subscriptions` is the
`map[string]chan struct\x7b\x7d` from subscription id to quit channel;
`tasks` records every forwarding goroutine ever spawned, as (id, quit);
`closedQuits` records every quit channel that has been closed;
`nextQuit` supplies fresh quit-channel identities. -/
structure Session where
  subscriptions : List (String × Nat)
  tasks : List (String × Nat)
  closedQuits : List Nat
  nextQuit : Nat
  deriving DecidableEq, Repr

/-- The state at the top of `handleWebSocketConnection`. -/
def initialSession : Session := ⟨[], [], [], 0⟩

/-- One iteration of the read loop's switch on `message.Type`, for a
message that unmarshalled.  Returns the new state, the protocol messages
written to the client, and whether the loop returns (terminates). -/
def handleRaw (s : Session) (m : RawMsg) : Session × List ServerMsg × Bool :=
  if m.type = "connection_init" then
    (s, [ServerMsg.connectionAck], false)
  else if m.type = "start" then
    if m.payloadOK then
      let quit := s.nextQuit
      ({ s with
          subscriptions := updateA s.subscriptions m.id quit,
          tasks := s.tasks ++ [(m.id, quit)],
          nextQuit := quit + 1 }, [], false)
    else
      (s, [ServerMsg.errorReply m.id "Invalid subscription payload"], false)
  else if m.type = "stop" then
    match lookupA s.subscriptions m.id with
    | some quit =>
      ({ s with
          subscriptions := removeA s.subscriptions m.id,
          closedQuits := s.closedQuits ++ [quit] },
       [ServerMsg.complete m.id], false)
    | none => (s, [ServerMsg.complete m.id], false)
  else if m.type = "connection_terminate" then
    (s, [], true)
  else
    (s, [], false)

/-- One read-loop iteration: a `none` input is an inbound frame whose JSON
envelope fails to unmarshal. -/
def processMessage (s : Session) (m : Option RawMsg) :
    Session × List ServerMsg × Bool :=
  match m with
  | none => (s, [ServerMsg.errorReply "" "Invalid message format"], false)
  | some raw => handleRaw s raw

/-- Run the read loop over a list of inbound frames, collecting the
outbound protocol messages; stops early on `connection_terminate`. -/
def runSession (s : Session) : List (Option RawMsg) → Session × List ServerMsg
  | [] => (s, [])
  | m :: ms =>
    let r := processMessage s m
    if r.2.2 then (r.1, r.2.1)
    else
      let rest := runSession r.1 ms
      (rest.1, r.2.1 ++ rest.2)

/-- The deferred cleanup of `handleWebSocketConnection`: close every quit
channel remaining in the subscription table. -/
def teardown (s : Session) : Session :=
  { s with closedQuits := s.closedQuits ++ s.subscriptions.map Prod.snd }

/-- Forwarding tasks for subscription id `id` whose quit channel has not
been closed (their goroutines are still running). -/
def runningTasks (s : Session) (id : String) : List (String × Nat) :=
  s.tasks.filter fun t => t.1 == id && !(s.closedQuits.contains t.2)

/-! ### The session invariant -/

/-- Invariant of reachable session states: subscription ids are distinct,
the quit channels in the table are distinct, open (never yet closed), and
below `nextQuit`, and every closed quit and every task is below
`nextQuit`. -/
structure SessInv (s : Session) : Prop where
  idsNodup : (s.subscriptions.map Prod.fst).Nodup
  quitsNodup : (s.subscriptions.map Prod.snd).Nodup
  quitsBound : ∀ p ∈ s.subscriptions, p.2 < s.nextQuit
  quitsOpen : ∀ p ∈ s.subscriptions, p.2 ∉ s.closedQuits
  closedBound : ∀ q ∈ s.closedQuits, q < s.nextQuit

theorem sessInv_initial : SessInv initialSession := by
  constructor <;> simp [initialSession]

theorem map_snd_updateA_nodup {l : List (String × Nat)} {k : String}
    {v : Nat} (hn : (l.map Prod.snd).Nodup) (hv : v ∉ l.map Prod.snd) :
    ((updateA l k v).map Prod.snd).Nodup := by
  induction l with
  | nil => simp [updateA]
  | cons p rest ih =>
    simp only [List.map_cons, List.nodup_cons] at hn
    simp only [List.map_cons, List.mem_cons, not_or] at hv
    unfold updateA
    split
    · simp only [List.map_cons, List.nodup_cons]
      exact ⟨hv.2, hn.2⟩
    · simp only [List.map_cons, List.nodup_cons]
      constructor
      · intro hmem
        rcases List.mem_map.1 hmem with ⟨q, hq, hqp⟩
        rcases mem_updateA hq with rfl | hq1
        · exact hv.1 hqp
        · exact hn.1 (hqp ▸ List.mem_map_of_mem Prod.snd hq1)
      · exact ih hn.2 hv.2

theorem mem_removeA_ne {α β : Type} [DecidableEq α] {l : List (α × β)}
    {k : α} {p : α × β} (hn : (l.map Prod.fst).Nodup)
    (hp : p ∈ removeA l k) : p.1 ≠ k := by
  induction l with
  | nil => simp [removeA] at hp
  | cons q rest ih =>
    simp only [List.map_cons, List.nodup_cons] at hn
    unfold removeA at hp
    split at hp
    · rename_i hq
      intro hpk
      have hmem : p.1 ∈ rest.map Prod.fst := List.mem_map_of_mem Prod.fst hp
      apply hn.1
      rw [hq, ← hpk]
      exact hmem
    · rename_i hq
      rcases List.mem_cons.1 hp with rfl | hp1
      · exact hq
      · exact ih hn.2 hp1

theorem sessInv_step (s : Session) (m : Option RawMsg) (h : SessInv s) :
    SessInv (processMessage s m).1 := by
  cases m with
  | none => exact h
  | some raw =>
    show SessInv (handleRaw s raw).1
    unfold handleRaw
    by_cases h1 : raw.type = "connection_init"
    · rw [if_pos h1]; exact h
    rw [if_neg h1]
    by_cases h2 : raw.type = "start"
    · rw [if_pos h2]
      by_cases hp : raw.payloadOK
      · rw [if_pos hp]
        show SessInv ⟨updateA s.subscriptions raw.id s.nextQuit,
          s.tasks ++ [(raw.id, s.nextQuit)], s.closedQuits, s.nextQuit + 1⟩
        have hfresh : s.nextQuit ∉ s.subscriptions.map Prod.snd := by
          intro hm
          rcases List.mem_map.1 hm with ⟨p, hpm, hps⟩
          exact lt_irrefl _ (hps ▸ h.quitsBound p hpm)
        constructor
        · cases hl : lookupA s.subscriptions raw.id with
          | none =>
            rw [updateA_of_none hl]
            simp only [List.map_append, List.map_cons, List.map_nil]
            refine List.nodup_append.2
              ⟨h.idsNodup, List.nodup_singleton _, ?_⟩
            intro a ha ha'
            rcases List.mem_singleton.1 ha' with rfl
            exact lookupA_eq_none.1 hl ha
          | some q =>
            rw [map_fst_updateA_of_some _ hl]
            exact h.idsNodup
        · exact map_snd_updateA_nodup h.quitsNodup hfresh
        · intro p hp
          rcases mem_updateA hp with rfl | hp1
          · exact Nat.lt_succ_self _
          · exact Nat.lt_succ_of_lt (h.quitsBound p hp1)
        · intro p hp
          rcases mem_updateA hp with rfl | hp1
          · intro hc
            exact lt_irrefl _ (h.closedBound _ hc)
          · exact h.quitsOpen p hp1
        · exact fun q hq => Nat.lt_succ_of_lt (h.closedBound q hq)
      · rw [if_neg hp]; exact h
    rw [if_neg h2]
    by_cases h3 : raw.type = "stop"
    · rw [if_pos h3]
      cases hl : lookupA s.subscriptions raw.id with
      | none => exact h
      | some quit =>
        have hquit : (raw.id, quit) ∈ s.subscriptions := lookupA_mem hl
        have hsub := removeA_sublist s.subscriptions raw.id
        constructor
        · exact h.idsNodup.sublist (hsub.map Prod.fst)
        · exact h.quitsNodup.sublist (hsub.map Prod.snd)
        · exact fun p hp => h.quitsBound p (hsub.mem hp)
        · intro p hp hc
          rcases List.mem_append.1 hc with hc1 | hc1
          · exact h.quitsOpen p (hsub.mem hp) hc1
          · have hc2 : p.2 = quit := List.mem_singleton.1 hc1
            have hpq : p = (raw.id, quit) :=
              List.inj_on_of_nodup_map h.quitsNodup (hsub.mem hp) hquit hc2
            exact mem_removeA_ne h.idsNodup hp (congrArg Prod.fst hpq)
        · intro q hq
          rcases List.mem_append.1 hq with hq1 | hq1
          · exact h.closedBound q hq1
          · rcases List.mem_singleton.1 hq1 with rfl
            exact h.quitsBound _ hquit
    rw [if_neg h3]
    by_cases h4 : raw.type = "connection_terminate"
    · rw [if_pos h4]; exact h
    · rw [if_neg h4]; exact h

theorem sessInv_run (ms : List (Option RawMsg)) :
    ∀ s : Session, SessInv s → SessInv (runSession s ms).1 := by
  induction ms with
  | nil => exact fun s h => h
  | cons m ms ih =>
    intro s h
    show SessInv (if (processMessage s m).2.2 = true
      then ((processMessage s m).1, (processMessage s m).2.1)
      else ((runSession (processMessage s m).1 ms).1,
        (processMessage s m).2.1 ++ (runSession (processMessage s m).1 ms).2)).1
    by_cases ht : (processMessage s m).2.2 = true
    · rw [if_pos ht]
      exact sessInv_step s m h
    · rw [if_neg ht]
      exact ih _ (sessInv_step s m h)

/-! ### The subscription resolver cleanup (pkg/graphql/resolver.go) -/

/-- Mirror of the cleanup goroutine spawned by `Resolver.DeliveryUpdated`:
when the subscription context is done it runs
`r.eventBus.Unsubscribe(purchaseIDStr, events)` followed by `close(c)`,
where `events` is the channel returned by `SubscribeToDeliveries` and `c`
is the downstream resolver channel handed to the GraphQL library.
`closed` accumulates the identifiers of closed channels. -/
def deliveryUpdatedCleanup (b : EventBus) (purchaseIDStr : String)
    (events : Nat) (c : Nat) (closed : List Nat) : EventBus × List Nat :=
  (unsubscribe b purchaseIDStr events, closed ++ [c])

/-! ### Remaining helper lemmas -/

theorem lookupA_of_mem_nodup {α β : Type} [DecidableEq α]
    {l : List (α × β)} {k : α} {v : β} (hn : (l.map Prod.fst).Nodup)
    (h : (k, v) ∈ l) : lookupA l k = some v := by
  induction l with
  | nil => cases h
  | cons p rest ih =>
    simp only [List.map_cons, List.nodup_cons] at hn
    rcases List.mem_cons.1 h with rfl | h1
    · exact if_pos rfl
    · have hk : p.1 ≠ k := by
        intro he
        apply hn.1
        rw [he]
        exact List.mem_map_of_mem Prod.fst h1
      calc lookupA (p :: rest) k = lookupA rest k := if_neg hk
        _ = some v := ih hn.2 h1

theorem mem_setInsert (l : List Nat) (x : Nat) : x ∈ setInsert l x := by
  unfold setInsert
  split
  · assumption
  · exact List.mem_append.2 (Or.inr (List.mem_singleton.2 rfl))

/-! ### Claims -/

/-- Claim C1: for every sequence of subscribe and unsubscribe (and
publish) operations on the event bus, the subscribers map contains no key
whose channel set is empty: `SubscribeToDeliveries` always inserts a
channel into the set it creates, and `Unsubscribe` deletes the key
entirely whenever removing a channel leaves its set empty. -/
theorem c1_no_empty_sets (ops : List BusOp) (p : String × List Nat)
    (hp : p ∈ (runOps ops).subscribers) : p.2 ≠ [] :=
  (busInv_runOps ops).setsNonempty p hp

/-- Witness for C1 at a concrete operation sequence. -/
theorem c1_no_empty_sets_witness :
    ("a", [0]) ∈ (runOps [BusOp.subscribe "a"]).subscribers ∧
    (("a", [0]) : String × List Nat).2 ≠ [] :=
  ⟨by decide, c1_no_empty_sets [BusOp.subscribe "a"] ("a", [0]) (by decide)⟩

/-- Claim C2: `PublishDelivery` attempts one non-blocking enqueue of the
event to every channel registered under the stringified purchase id and,
independently, to every channel registered under the wildcard key `""`;
a full channel is silently skipped (the event is dropped for that one
subscriber only), the registry and `nextCh` are untouched, no
back-pressure is applied and nothing is retried. -/
theorem c2_publish_fanout (b : EventBus) (d : Delivery) (c : Nat)
    (buf : List DeliveryEvent) (h : lookupA b.chans c = some buf) :
    (publishDelivery b d).subscribers = b.subscribers ∧
    (publishDelivery b d).nextCh = b.nextCh ∧
    lookupA (publishDelivery b d).chans c
      = some (if c ∈ (lookupA b.subscribers "").getD [] then
          offer (if c ∈ (lookupA b.subscribers (itoa d.purchaseID)).getD []
                 then offer buf ⟨d⟩ else buf) ⟨d⟩
        else
          (if c ∈ (lookupA b.subscribers (itoa d.purchaseID)).getD []
           then offer buf ⟨d⟩ else buf)) := by
  refine ⟨rfl, rfl, ?_⟩
  rw [lookupA_publishDelivery, h]
  rfl

/-- Witness for C2 at a concrete bus, channel and delivery. -/
theorem c2_publish_fanout_witness :
    lookupA (subscribeToDeliveries newEventBus "5").2.chans 0 = some [] ∧
    ((publishDelivery (subscribeToDeliveries newEventBus "5").2
        ⟨1, 5, 0, "NEW"⟩).subscribers
      = (subscribeToDeliveries newEventBus "5").2.subscribers ∧
    (publishDelivery (subscribeToDeliveries newEventBus "5").2
        ⟨1, 5, 0, "NEW"⟩).nextCh
      = (subscribeToDeliveries newEventBus "5").2.nextCh ∧
    lookupA (publishDelivery (subscribeToDeliveries newEventBus "5").2
        ⟨1, 5, 0, "NEW"⟩).chans 0
      = some (if 0 ∈ (lookupA (subscribeToDeliveries newEventBus
              "5").2.subscribers "").getD [] then
          offer (if 0 ∈ (lookupA (subscribeToDeliveries newEventBus
                  "5").2.subscribers
                  (itoa (⟨1, 5, 0, "NEW"⟩ : Delivery).purchaseID)).getD []
                 then offer [] ⟨⟨1, 5, 0, "NEW"⟩⟩ else []) ⟨⟨1, 5, 0, "NEW"⟩⟩
        else
          (if 0 ∈ (lookupA (subscribeToDeliveries newEventBus
                  "5").2.subscribers
                  (itoa (⟨1, 5, 0, "NEW"⟩ : Delivery).purchaseID)).getD []
           then offer [] ⟨⟨1, 5, 0, "NEW"⟩⟩ else []))) :=
  ⟨by decide,
   c2_publish_fanout (subscribeToDeliveries newEventBus "5").2
     ⟨1, 5, 0, "NEW"⟩ 0 [] (by decide)⟩

/-- Claim C3: a subscriber channel has capacity `chanCap = 1`; publishing
two events under the channel's key without consumption delivers exactly
the first and drops exactly the second (the newest is the one dropped). -/
theorem c3_drop_newest (pid : Int) (d1 d2 : Delivery)
    (h1 : d1.purchaseID = pid) (h2 : d2.purchaseID = pid) :
    chanCap = 1 ∧
    lookupA (publishDelivery (publishDelivery
        (subscribeToDeliveries newEventBus (itoa pid)).2 d1) d2).chans
      (subscribeToDeliveries newEventBus (itoa pid)).1
      = some [⟨d1⟩] := by
  subst h1
  refine ⟨rfl, ?_⟩
  have hne := itoa_ne_empty d1.purchaseID
  simp [subscribeToDeliveries, newEventBus, publishDelivery, sendToKey,
        sendToSet, lookupA, updateA, setInsert, offer, chanCap, h2, hne]

/-- Witness for C3 at concrete deliveries. -/
theorem c3_drop_newest_witness :
    chanCap = 1 ∧
    lookupA (publishDelivery (publishDelivery
        (subscribeToDeliveries newEventBus (itoa 5)).2
        ⟨1, 5, 10, "NEW"⟩) ⟨2, 5, 11, "PACKED"⟩).chans
      (subscribeToDeliveries newEventBus (itoa 5)).1
      = some [⟨⟨1, 5, 10, "NEW"⟩⟩] :=
  c3_drop_newest 5 ⟨1, 5, 10, "NEW"⟩ ⟨2, 5, 11, "PACKED"⟩ rfl rfl

/-- Claim C9 (implicit): on every reachable bus, the channel set under the
event's stringified purchase-id key and the set under the wildcard key
`""` are disjoint (a channel is registered under exactly one key at
creation and a stringified integer is never the empty string), so each
registered channel is offered a published event at most once: its buffer
is either unchanged or extended by exactly one copy of the event. -/
theorem c9_offer_at_most_once (ops : List BusOp) (d : Delivery) (c : Nat)
    (buf : List DeliveryEvent) (s1 s2 : List Nat)
    (hc : (c, buf) ∈ (runOps ops).chans)
    (h1 : lookupA (runOps ops).subscribers (itoa d.purchaseID) = some s1)
    (h2 : lookupA (runOps ops).subscribers "" = some s2) :
    (∀ x ∈ s1, x ∉ s2) ∧
    (lookupA (publishDelivery (runOps ops) d).chans c = some buf ∨
     lookupA (publishDelivery (runOps ops) d).chans c
       = some (buf ++ [⟨d⟩])) := by
  have hinv := busInv_runOps ops
  have hdisj : ∀ x ∈ s1, x ∉ s2 :=
    busInv_lookup_disjoint hinv h1 h2 (itoa_ne_empty d.purchaseID)
  refine ⟨hdisj, ?_⟩
  have hbuf : lookupA (runOps ops).chans c = some buf :=
    lookupA_of_mem_nodup hinv.chansNodup hc
  rw [lookupA_publishDelivery, hbuf, h1, h2]
  simp only [Option.map_some', Option.getD_some]
  by_cases hc1 : c ∈ s1
  · have hc2 : c ∉ s2 := hdisj c hc1
    rw [if_neg hc2, if_pos hc1]
    unfold offer
    split
    · exact Or.inr rfl
    · exact Or.inl rfl
  · by_cases hc2 : c ∈ s2
    · rw [if_pos hc2, if_neg hc1]
      unfold offer
      split
      · exact Or.inr rfl
      · exact Or.inl rfl
    · rw [if_neg hc2, if_neg hc1]
      exact Or.inl rfl

/-- Witness for C9 at a concrete bus with one keyed and one wildcard
subscriber. -/
theorem c9_offer_at_most_once_witness :
    ((0, ([] : List DeliveryEvent))
        ∈ (runOps [BusOp.subscribe "5", BusOp.subscribe ""]).chans) ∧
    lookupA (runOps [BusOp.subscribe "5", BusOp.subscribe ""]).subscribers
        (itoa (⟨1, 5, 0, "NEW"⟩ : Delivery).purchaseID) = some [0] ∧
    lookupA (runOps [BusOp.subscribe "5", BusOp.subscribe ""]).subscribers
        "" = some [1] ∧
    ((∀ x ∈ [0], x ∉ [1]) ∧
     (lookupA (publishDelivery
         (runOps [BusOp.subscribe "5", BusOp.subscribe ""])
         ⟨1, 5, 0, "NEW"⟩).chans 0 = some [] ∨
      lookupA (publishDelivery
         (runOps [BusOp.subscribe "5", BusOp.subscribe ""])
         ⟨1, 5, 0, "NEW"⟩).chans 0 = some ([] ++ [⟨⟨1, 5, 0, "NEW"⟩⟩]))) :=
  ⟨by decide, by decide, by decide,
   c9_offer_at_most_once [BusOp.subscribe "5", BusOp.subscribe ""]
     ⟨1, 5, 0, "NEW"⟩ 0 [] [0] [1] (by decide) (by decide) (by decide)⟩

theorem subscribers_subscribeToDeliveries (b : EventBus) (k : String) :
    (subscribeToDeliveries b k).2.subscribers
      = updateA b.subscribers k
          (setInsert ((lookupA b.subscribers k).getD []) b.nextCh) := by
  cases h : lookupA b.subscribers k with
  | none => simp [subscribeToDeliveries, h]
  | some s => simp [subscribeToDeliveries, h]

/-- Claim C10 (implicit): `SubscribeToDeliveries` returns a freshly
created channel of capacity `chanCap = 1` with an empty buffer that was
not previously present anywhere in the registry, registers it under
exactly the key given as argument and no other, and the registry maps
each channel to at most one key at all times. -/
theorem c10_subscribe_fresh (ops : List BusOp) (k : String)
    (p q : String × List Nat) (c : Nat)
    (hp : p ∈ (subscribeToDeliveries (runOps ops) k).2.subscribers)
    (hq : q ∈ (subscribeToDeliveries (runOps ops) k).2.subscribers)
    (hcp : c ∈ p.2) (hcq : c ∈ q.2) :
    chanCap = 1 ∧
    lookupA (runOps ops).chans (subscribeToDeliveries (runOps ops) k).1
      = none ∧
    (∀ e ∈ (runOps ops).subscribers,
      (subscribeToDeliveries (runOps ops) k).1 ∉ e.2) ∧
    lookupA (subscribeToDeliveries (runOps ops) k).2.chans
      (subscribeToDeliveries (runOps ops) k).1 = some [] ∧
    (∃ s, lookupA (subscribeToDeliveries (runOps ops) k).2.subscribers k
        = some s ∧ (subscribeToDeliveries (runOps ops) k).1 ∈ s) ∧
    (∀ e ∈ (subscribeToDeliveries (runOps ops) k).2.subscribers,
      (subscribeToDeliveries (runOps ops) k).1 ∈ e.2 → e.1 = k) ∧
    p.1 = q.1 := by
  have hinv := busInv_runOps ops
  have hinv2 : BusInv (subscribeToDeliveries (runOps ops) k).2 :=
    busInv_subscribe (runOps ops) k hinv
  have hchnone : lookupA (runOps ops).chans (runOps ops).nextCh = none := by
    rw [lookupA_eq_none]
    intro hm
    exact lt_irrefl _ (hinv.chan_key_lt hm)
  refine ⟨rfl, hchnone, ?_, ?_, ?_, ?_, ?_⟩
  · intro e he hm
    exact lt_irrefl _ (hinv.setsBound e he _ hm)
  · show lookupA ((runOps ops).chans ++ [((runOps ops).nextCh, [])])
      (runOps ops).nextCh = some []
    rw [lookupA_append_left hchnone]
    exact if_pos rfl
  · rw [subscribers_subscribeToDeliveries]
    exact ⟨_, lookupA_updateA_self _ _ _, mem_setInsert _ _⟩
  · intro e he hm
    rw [subscribers_subscribeToDeliveries] at he
    rcases mem_updateA he with rfl | he1
    · rfl
    · exact absurd hm
        (fun hmm => lt_irrefl _ (hinv.setsBound e he1 _ hmm))
  · by_cases hpq : p = q
    · rw [hpq]
    · exact absurd hcq (hinv2.disj_of_ne hp hq hpq c hcp)

/-- Witness for C10 at a concrete subscription. -/
theorem c10_subscribe_fresh_witness :
    (("7", [0]) ∈ (subscribeToDeliveries (runOps []) "7").2.subscribers) ∧
    ((0 : Nat) ∈ (("7", [0]) : String × List Nat).2) ∧
    (chanCap = 1 ∧
     lookupA (runOps []).chans (subscribeToDeliveries (runOps []) "7").1
       = none ∧
     (∀ e ∈ (runOps []).subscribers,
       (subscribeToDeliveries (runOps []) "7").1 ∉ e.2) ∧
     lookupA (subscribeToDeliveries (runOps []) "7").2.chans
       (subscribeToDeliveries (runOps []) "7").1 = some [] ∧
     (∃ s, lookupA (subscribeToDeliveries (runOps []) "7").2.subscribers "7"
         = some s ∧ (subscribeToDeliveries (runOps []) "7").1 ∈ s) ∧
     (∀ e ∈ (subscribeToDeliveries (runOps []) "7").2.subscribers,
       (subscribeToDeliveries (runOps []) "7").1 ∈ e.2 → e.1 = "7") ∧
     (("7", [0]) : String × List Nat).1
       = (("7", [0]) : String × List Nat).1) :=
  ⟨by decide, by decide,
   c10_subscribe_fresh [] "7" ("7", [0]) ("7", [0]) 0
     (by decide) (by decide) (by decide) (by decide)⟩

/-- Claim C4, counterexample: after `start("s1")`, sending `stop("s1")`
twice produces the `complete("s1")` message twice — the session replies
`complete` on every `stop`, including one for an id no longer in the
table, so a duplicate `complete` is produced. -/
theorem c4_duplicate_complete_counterexample :
    (runSession initialSession
      [some ⟨"start", "s1", true⟩, some ⟨"stop", "s1", true⟩,
       some ⟨"stop", "s1", true⟩]).2
      = [ServerMsg.complete "s1", ServerMsg.complete "s1"] := by decide

/-- Claim C4 as amended: a `stop(id)` for an id absent from the session's
subscription table (in particular the second of two stops for the same
id) leaves the session state unchanged and closes no channel (hence no
panic), but it still elicits one `complete(id)` reply — the `complete` is
sent unconditionally, so stopping twice duplicates it. -/
theorem c4_stop_absent_state_noop (s : Session) (id : String)
    (h : lookupA s.subscriptions id = none) :
    handleRaw s ⟨"stop", id, true⟩ = (s, [ServerMsg.complete id], false) := by
  unfold handleRaw
  simp only [String.reduceEq, if_false, reduceIte, h]

/-- Witness for the amended C4 at a concrete session. -/
theorem c4_stop_absent_state_noop_witness :
    lookupA initialSession.subscriptions "s1" = none ∧
    handleRaw initialSession ⟨"stop", "s1", true⟩
      = (initialSession, [ServerMsg.complete "s1"], false) :=
  ⟨by decide, c4_stop_absent_state_noop initialSession "s1" (by decide)⟩

/-- Claim C5, counterexample: a message of the unhandled type `"bogus"`
produces no outbound message at all — in particular no `error` protocol
message is sent to the client, contrary to the claim. -/
theorem c5_no_error_reply_counterexample :
    (handleRaw initialSession ⟨"bogus", "", true⟩).2.1 = [] := by decide

/-- Claim C5 as amended: an inbound message whose type is none of the four
handled types is only logged: the session state is unchanged, the read
loop continues, and no protocol message (in particular no `error`
message) is sent to the client. -/
theorem c5_unknown_type_ignored (s : Session) (m : RawMsg)
    (h1 : m.type ≠ "connection_init") (h2 : m.type ≠ "start")
    (h3 : m.type ≠ "stop") (h4 : m.type ≠ "connection_terminate") :
    handleRaw s m = (s, [], false) := by
  unfold handleRaw
  rw [if_neg h1, if_neg h2, if_neg h3, if_neg h4]

/-- Witness for the amended C5 at a concrete message. -/
theorem c5_unknown_type_ignored_witness :
    (("bogus" : String) ≠ "connection_init") ∧ (("bogus" : String) ≠ "start") ∧
    (("bogus" : String) ≠ "stop") ∧
    (("bogus" : String) ≠ "connection_terminate") ∧
    handleRaw initialSession ⟨"bogus", "x", true⟩
      = (initialSession, [], false) :=
  ⟨by decide, by decide, by decide, by decide,
   c5_unknown_type_ignored initialSession ⟨"bogus", "x", true⟩
     (by decide) (by decide) (by decide) (by decide)⟩

/-- Claim C6, counterexample: two `start("s1")` messages leave two
forwarding tasks for id "s1" both still running (no quit channel was
closed) — the prior subscription is not cancelled before the new one is
recorded. -/
theorem c6_two_tasks_counterexample :
    (runningTasks (runSession initialSession
      [some ⟨"start", "s1", true⟩, some ⟨"start", "s1", true⟩]).1
      "s1").length = 2 := by decide

/-- Claim C6 as amended: when `start(id)` arrives while a subscription is
already active for `id`, the table entry is overwritten with the fresh
quit handle and a second forwarding task is spawned, but the prior task is
not cancelled: its quit channel stays open and it remains in the task
list, so two forwarding tasks for the same id run concurrently. -/
theorem c6_duplicate_start_no_cancel (s : Session) (id : String) (q : Nat)
    (hq : lookupA s.subscriptions id = some q)
    (htask : (id, q) ∈ s.tasks) (hopen : q ∉ s.closedQuits) :
    lookupA (handleRaw s ⟨"start", id, true⟩).1.subscriptions id
        = some s.nextQuit ∧
    (handleRaw s ⟨"start", id, true⟩).1.closedQuits = s.closedQuits ∧
    q ∉ (handleRaw s ⟨"start", id, true⟩).1.closedQuits ∧
    (handleRaw s ⟨"start", id, true⟩).1.tasks
        = s.tasks ++ [(id, s.nextQuit)] ∧
    (id, q) ∈ (handleRaw s ⟨"start", id, true⟩).1.tasks := by
  have hred : (handleRaw s ⟨"start", id, true⟩).1
      = ⟨updateA s.subscriptions id s.nextQuit,
         s.tasks ++ [(id, s.nextQuit)], s.closedQuits, s.nextQuit + 1⟩ := by
    unfold handleRaw
    simp only [String.reduceEq, if_false, reduceIte]
  rw [hred]
  exact ⟨lookupA_updateA_self _ _ _, rfl, hopen, rfl,
    List.mem_append.2 (Or.inl htask)⟩

/-- Witness for the amended C6: a session that already started "s1". -/
theorem c6_duplicate_start_no_cancel_witness :
    lookupA (handleRaw initialSession ⟨"start", "s1", true⟩).1.subscriptions
        "s1" = some 0 ∧
    ("s1", 0) ∈ (handleRaw initialSession ⟨"start", "s1", true⟩).1.tasks ∧
    (0 : Nat) ∉ (handleRaw initialSession ⟨"start", "s1", true⟩).1.closedQuits ∧
    (lookupA (handleRaw (handleRaw initialSession
          ⟨"start", "s1", true⟩).1 ⟨"start", "s1", true⟩).1.subscriptions "s1"
        = some (handleRaw initialSession ⟨"start", "s1", true⟩).1.nextQuit ∧
     (handleRaw (handleRaw initialSession ⟨"start", "s1", true⟩).1
          ⟨"start", "s1", true⟩).1.closedQuits
        = (handleRaw initialSession ⟨"start", "s1", true⟩).1.closedQuits ∧
     (0 : Nat) ∉ (handleRaw (handleRaw initialSession ⟨"start", "s1", true⟩).1
          ⟨"start", "s1", true⟩).1.closedQuits ∧
     (handleRaw (handleRaw initialSession ⟨"start", "s1", true⟩).1
          ⟨"start", "s1", true⟩).1.tasks
        = (handleRaw initialSession ⟨"start", "s1", true⟩).1.tasks
          ++ [("s1", (handleRaw initialSession
                ⟨"start", "s1", true⟩).1.nextQuit)] ∧
     ("s1", 0) ∈ (handleRaw (handleRaw initialSession
          ⟨"start", "s1", true⟩).1 ⟨"start", "s1", true⟩).1.tasks) :=
  ⟨by decide, by decide, by decide,
   c6_duplicate_start_no_cancel
     (handleRaw initialSession ⟨"start", "s1", true⟩).1 "s1" 0
     (by decide) (by decide) (by decide)⟩

/-- Claim C7: on read-loop exit with M entries outstanding in the
subscription table, the deferred teardown closes exactly the M quit
channels remaining in the table; those handles are pairwise distinct and
none of them was closed before (a stopped subscription's handle was
removed from the table at stop time), so each outstanding handle is
invoked exactly once and none twice. -/
theorem c7_teardown_closes_each_once (ms : List (Option RawMsg)) (q : Nat)
    (hq : q ∈ (runSession initialSession ms).1.subscriptions.map Prod.snd) :
    (teardown (runSession initialSession ms).1).closedQuits
      = (runSession initialSession ms).1.closedQuits
        ++ (runSession initialSession ms).1.subscriptions.map Prod.snd ∧
    ((runSession initialSession ms).1.subscriptions.map Prod.snd).length
      = (runSession initialSession ms).1.subscriptions.length ∧
    ((runSession initialSession ms).1.subscriptions.map Prod.snd).Nodup ∧
    q ∉ (runSession initialSession ms).1.closedQuits := by
  have hinv := sessInv_run ms initialSession sessInv_initial
  refine ⟨rfl, List.length_map _ _, hinv.quitsNodup, ?_⟩
  rcases List.mem_map.1 hq with ⟨p, hp, hpq⟩
  exact hpq ▸ hinv.quitsOpen p hp

/-- Witness for C7 at a concrete trace with one open subscription. -/
theorem c7_teardown_closes_each_once_witness :
    ((0 : Nat) ∈ (runSession initialSession
        [some ⟨"start", "s1", true⟩]).1.subscriptions.map Prod.snd) ∧
    ((teardown (runSession initialSession
        [some ⟨"start", "s1", true⟩]).1).closedQuits
      = (runSession initialSession
          [some ⟨"start", "s1", true⟩]).1.closedQuits
        ++ (runSession initialSession
            [some ⟨"start", "s1", true⟩]).1.subscriptions.map Prod.snd ∧
    ((runSession initialSession
        [some ⟨"start", "s1", true⟩]).1.subscriptions.map Prod.snd).length
      = (runSession initialSession
          [some ⟨"start", "s1", true⟩]).1.subscriptions.length ∧
    ((runSession initialSession
        [some ⟨"start", "s1", true⟩]).1.subscriptions.map Prod.snd).Nodup ∧
    (0 : Nat) ∉ (runSession initialSession
        [some ⟨"start", "s1", true⟩]).1.closedQuits) :=
  ⟨by decide,
   c7_teardown_closes_each_once [some ⟨"start", "s1", true⟩] 0 (by decide)⟩

/-- Claim C8, counterexample: subscribing to key "7" and running the
resolver cleanup removes the subscriber channel (id 0) from the registry,
but closes only the downstream resolver channel (id 1): the subscriber
channel's id is not in the closed set, contrary to the claim that it is
both removed and closed. -/
theorem c8_not_closed_counterexample :
    (deliveryUpdatedCleanup (subscribeToDeliveries newEventBus "7").2 "7"
        (subscribeToDeliveries newEventBus "7").1 1 []).1.subscribers = [] ∧
    (subscribeToDeliveries newEventBus "7").1
      ∉ (deliveryUpdatedCleanup (subscribeToDeliveries newEventBus "7").2 "7"
        (subscribeToDeliveries newEventBus "7").1 1 []).2 := by decide

/-- Claim C8 as amended: when the subscription context is done, the
cleanup removes the subscriber channel from the Topic Registry via
`Unsubscribe`, but does not close it — `close(c)` closes only the
downstream resolver channel; the subscriber channel stays open. -/
theorem c8_unsubscribed_not_closed (b : EventBus) (pid : String)
    (events c : Nat) (closed : List Nat) (h1 : events ∉ closed)
    (h2 : events ≠ c) :
    (deliveryUpdatedCleanup b pid events c closed).1
        = unsubscribe b pid events ∧
    c ∈ (deliveryUpdatedCleanup b pid events c closed).2 ∧
    events ∉ (deliveryUpdatedCleanup b pid events c closed).2 := by
  refine ⟨rfl, ?_, ?_⟩
  · exact List.mem_append.2 (Or.inr (List.mem_singleton.2 rfl))
  · intro hm
    rcases List.mem_append.1 hm with hm1 | hm1
    · exact h1 hm1
    · exact h2 (List.mem_singleton.1 hm1)

/-- Witness for the amended C8 at the concrete cleanup scenario. -/
theorem c8_unsubscribed_not_closed_witness :
    ((0 : Nat) ∉ ([] : List Nat)) ∧ ((0 : Nat) ≠ 1) ∧
    ((deliveryUpdatedCleanup (subscribeToDeliveries newEventBus "7").2 "7"
        0 1 []).1 = unsubscribe (subscribeToDeliveries newEventBus "7").2
        "7" 0 ∧
     (1 : Nat) ∈ (deliveryUpdatedCleanup
        (subscribeToDeliveries newEventBus "7").2 "7" 0 1 []).2 ∧
     (0 : Nat) ∉ (deliveryUpdatedCleanup
        (subscribeToDeliveries newEventBus "7").2 "7" 0 1 []).2) :=
  ⟨by decide, by decide,
   c8_unsubscribed_not_closed (subscribeToDeliveries newEventBus "7").2
     "7" 0 1 [] (by decide) (by decide)⟩

end GraphqlTiny
